import Mathlib

/-!
# Verification of the Metricon RAG assistant core

Shallow embedding of the offline chunking/indexing pipeline (`chunker.py`,
`data_ingestion.py`) and the online answering path (`app.py`).

Modelling conventions:
* Python strings are lists of characters (`Str := List Char`).
* Parsed JSON values are `PyVal` (strings, integers, arrays, objects);
  JSON booleans/null and float literals are not needed by any property
  below and are omitted from the value universe.
* External services (the Bedrock language model, the sentence embedder,
  the Qdrant store) are parameters: a call that can fail is a function
  into `Option`/`Except`, where `none`/`.error e` stands for any raised
  exception (including timeouts and unparsable responses) and the payload
  of a success is the fully parsed value.
* The `while` loop of `split_text` is given a fuel parameter; `none`
  means the fuel ran out, and non-termination of the source loop is the
  statement that every fuel amount yields `none`.
-/

set_option maxRecDepth 10000

namespace MetriconRag

/-- Python strings, modelled as lists of characters. -/
abbrev Str := List Char

/-- Accumulator pass of Python `str.split()`: walk the characters, splitting
on whitespace runs and dropping empty fragments. `cur` holds the current
word reversed. -/
def wordsAux : Str → Str → List Str
  | [], cur => if cur = [] then [] else [cur.reverse]
  | c :: rest, cur =>
    if c.isWhitespace then
      if cur = [] then wordsAux rest [] else cur.reverse :: wordsAux rest []
    else wordsAux rest (c :: cur)

/-- Python `text.split()` (no separator argument): split on whitespace runs,
no empty words. -/
def pySplit (s : Str) : List Str := wordsAux s []

/-- Python `" ".join` generalised to an arbitrary separator:
`joinWith sep [w1, ..., wn] = w1 ++ sep ++ ... ++ sep ++ wn`. -/
def joinWith (sep : Str) : List Str → Str
  | [] => []
  | [w] => w
  | w :: ws => w ++ sep ++ joinWith sep ws

/-- Python `s.strip()`: drop whitespace from both ends. -/
def pyStrip (s : Str) : Str :=
  ((s.dropWhile Char.isWhitespace).reverse.dropWhile Char.isWhitespace).reverse

/-- Normalise a Python slice endpoint against a list of length `len`:
negative indices count from the end, and indices are clamped into
`[0, len]`. -/
def pyIdx (len : Nat) (i : Int) : Nat :=
  if i < 0 then ((len : Int) + i).toNat else min i.toNat len

/-- Python `xs[start:stop]` for integer endpoints. -/
def pySlice {α : Type} (xs : List α) (start stop : Int) : List α :=
  let s := pyIdx xs.length start
  let e := pyIdx xs.length stop
  (xs.drop s).take (e - s)

/-- The `while start < len(words)` loop of `split_text` (chunker.py lines
49-54), with fuel. Each round takes the window `words[start:start+chunk_size]`,
joins it with single spaces, keeps it only if its stripped length exceeds 50
characters, and advances `start` by `chunk_size - overlap` (computed in `Int`,
exactly as Python does). `none` means the fuel was exhausted. -/
def splitLoop (words : List Str) (chunk_size overlap : Int) :
    Nat → Int → List Str → Option (List Str)
  | 0, _, _ => none
  | fuel + 1, start, acc =>
    if start < (words.length : Int) then
      let chunk := joinWith " ".toList (pySlice words start (start + chunk_size))
      splitLoop words chunk_size overlap fuel (start + (chunk_size - overlap))
        (if 50 < (pyStrip chunk).length then acc ++ [chunk] else acc)
    else
      some acc

/-- `split_text(text, chunk_size, overlap)` run with an explicit fuel bound
on the number of loop rounds. -/
def split_text_fuel (fuel : Nat) (text : Str) (chunk_size overlap : Int) :
    Option (List Str) :=
  splitLoop (pySplit text) chunk_size overlap fuel 0 []

/-- `split_text` (chunker.py lines 45-55). The fuel `(number of words) + 1`
is sufficient whenever the stride `chunk_size - overlap` is positive (proved
below), so a `none` result signals the non-terminating configurations. -/
def split_text (text : Str) (chunk_size overlap : Int) : Option (List Str) :=
  split_text_fuel ((pySplit text).length + 1) text chunk_size overlap

/-- Parsed JSON values, as produced by Python's `json.loads` and stored in
Qdrant payloads. Objects are association lists with unique keys (which is
what `json.loads` yields: a later duplicate key overwrites the earlier one).
JSON booleans/null/floats are not exercised by any property below. -/
inductive PyVal : Type where
  | str : Str → PyVal
  | int : Int → PyVal
  | list : List PyVal → PyVal
  | dict : List (Str × PyVal) → PyVal

/-- Python `d.get(k, default)` on a parsed JSON object. -/
def pyGetD (kvs : List (Str × PyVal)) (k : Str) (d : PyVal) : PyVal :=
  (kvs.lookup k).getD d

mutual

/-- Python `repr()` restricted to the value universe above (quote escaping
inside string reprs is omitted; no property below depends on it). -/
def pyRepr : PyVal → Str
  | .str s => Char.ofNat 39 :: s ++ [Char.ofNat 39]
  | .int n => (toString n).toList
  | .list xs => '[' :: joinWith ", ".toList (pyReprList xs) ++ [']']
  | .dict kvs => '{' :: joinWith ", ".toList (pyReprKVs kvs) ++ ['}']

/-- `repr` of each element of a JSON array. -/
def pyReprList : List PyVal → List Str
  | [] => []
  | v :: vs => pyRepr v :: pyReprList vs

/-- `repr` of each `key: value` entry of a JSON object. -/
def pyReprKVs : List (Str × PyVal) → List Str
  | [] => []
  | (k, v) :: kvs => (pyRepr (.str k) ++ ": ".toList ++ pyRepr v) :: pyReprKVs kvs

end

/-- Python `str()` as applied by f-string interpolation. -/
def pyStr : PyVal → Str
  | .str s => s
  | v => pyRepr v

/-- The deterministic default metadata of `enrich_chunk` (chunker.py lines
99-105), returned whenever the Bedrock call or the parsing of its response
raises. -/
def fallbackMeta (chunk_text : Str) : PyVal :=
  .dict [("title".toList, .str "General Information".toList),
         ("summary".toList, .str (chunk_text.take 100)),
         ("keywords".toList, .list []),
         ("category".toList, .str "General".toList),
         ("importance".toList, .int 5)]

/-- `enrich_chunk` (chunker.py lines 60-105). The whole guarded region —
the Bedrock `invoke_model` call, reading the response body, stripping fenced
code-block markers, and `json.loads` of the sanitized text — is modelled by
the oracle `llm`: `some v` is a run of that region returning the parsed
value `v`, and `none` is a run raising anywhere inside it (failure, timeout,
unparsable output). The `source` argument is accepted and ignored, exactly
as in the source. -/
def enrich_chunk (llm : Str → Option PyVal) (chunk_text source : Str) : PyVal :=
  match llm chunk_text with
  | some enriched => enriched
  | none => fallbackMeta chunk_text

/-- One catalog record as assembled by `agentic_chunking_pipeline`
(chunker.py lines 124-133). Metadata fields keep the untyped JSON values
the code stores. -/
structure EnrichedChunk : Type where
  id : Nat
  source : Str
  text : Str
  title : PyVal
  summary : PyVal
  keywords : PyVal
  category : PyVal
  importance : PyVal

/-- The body of the inner loop of `agentic_chunking_pipeline` (chunker.py
lines 120-133): enrich one raw chunk and build its catalog record with the
per-field `.get` defaults. Python's `enriched.get(...)` raises
`AttributeError` when `enriched` is not a dict (the enrichment model may
return any JSON value), which crashes the pipeline: that uncaught failure
is the `none` result. -/
def buildEntry (llm : Str → Option PyVal) (chunk_id : Nat) (source chunk : Str) :
    Option EnrichedChunk :=
  match enrich_chunk llm chunk source with
  | .dict kvs =>
      some ⟨chunk_id, source, chunk,
            pyGetD kvs "title".toList (.str []),
            pyGetD kvs "summary".toList (.str []),
            pyGetD kvs "keywords".toList (.list []),
            pyGetD kvs "category".toList (.str "General".toList),
            pyGetD kvs "importance".toList (.int 5)⟩
  | _ => none

/-- The inner `for i, chunk in enumerate(raw_chunks)` loop of
`agentic_chunking_pipeline`, threading the global `chunk_id` counter. -/
def enrichAll (llm : Str → Option PyVal) (source : Str) :
    List Str → Nat → Option (List EnrichedChunk)
  | [], _ => some []
  | c :: cs, n =>
    match buildEntry llm n source c with
    | none => none
    | some e =>
      match enrichAll llm source cs (n + 1) with
      | none => none
      | some es => some (e :: es)

/-- The outer `for doc in documents` loop of `agentic_chunking_pipeline`
(chunker.py lines 115-136): split each document with the default
`chunk_size=400, overlap=50`, enrich every raw chunk, and keep advancing
the single global id counter across documents. -/
def buildDocs (llm : Str → Option PyVal) :
    List (Str × Str) → Nat → Option (List EnrichedChunk)
  | [], _ => some []
  | (source, text) :: docs, n =>
    match split_text text 400 50 with
    | none => none
    | some chunks =>
      match enrichAll llm source chunks n with
      | none => none
      | some es =>
        match buildDocs llm docs (n + chunks.length) with
        | none => none
        | some rest => some (es ++ rest)

/-- `agentic_chunking_pipeline` (chunker.py lines 110-144). `load_pdfs` is
the excluded text-extraction collaborator, so the documents (source name,
extracted text) arrive as an argument; the `time.sleep` rate limiting and
the final `json.dump` persist step carry no data flow and are dropped. The
result is the `all_chunks` catalog. -/
def agentic_chunking_pipeline (llm : Str → Option PyVal)
    (documents : List (Str × Str)) : Option (List EnrichedChunk) :=
  buildDocs llm documents 0

/-- Total number of raw chunks produced by `split_text` (defaults) across a
document list; `none` if some split does not terminate within its fuel. -/
def totalRawChunks : List (Str × Str) → Option Nat
  | [] => some 0
  | (_, text) :: docs =>
    match split_text text 400 50, totalRawChunks docs with
    | some cs, some m => some (cs.length + m)
    | _, _ => none

/-- Conversation roles of the Gradio `messages` history. -/
inductive Role : Type where
  | user : Role
  | assistant : Role

/-- One `{"role": ..., "content": ...}` turn of the conversation history. -/
structure Turn : Type where
  role : Role
  content : Str

/-- A point returned by `qdrant.query_points`; `rag_answer` touches only its
payload, a parsed JSON object. -/
structure QPoint : Type where
  payload : List (Str × PyVal)

/-- Python `p.payload['k']`: a missing key raises `KeyError`, whose `str()`
is the key wrapped in single quotes. -/
def payloadGet (p : QPoint) (k : Str) : Except Str PyVal :=
  match p.payload.lookup k with
  | some v => .ok v
  | none => .error (Char.ofNat 39 :: k ++ [Char.ofNat 39])

/-- The `for p in results.points` loop of `rag_answer` (app.py lines 43-52):
build the context block entries and the source summary entries, accessing
payload keys in the order the source reads them (category, title, text for
the context entry, then title, source, category, importance for the source
entry); the first missing key aborts the loop with its `KeyError`. -/
def collectChunks : List QPoint → Except Str (List Str × List Str)
  | [] => .ok ([], [])
  | p :: ps => do
    let cat ← payloadGet p "category".toList
    let title ← payloadGet p "title".toList
    let txt ← payloadGet p "text".toList
    let src ← payloadGet p "source".toList
    let imp ← payloadGet p "importance".toList
    let (cs, ss) ← collectChunks ps
    .ok (("[".toList ++ pyStr cat ++ "] ".toList ++ pyStr title
            ++ "\n".toList ++ pyStr txt) :: cs,
         ("📄 **".toList ++ pyStr title ++ "**\n📂 ".toList ++ pyStr src
            ++ " | 🏷️ ".toList ++ pyStr cat ++ " | ⭐ ".toList ++ pyStr imp
            ++ "/10".toList) :: ss)

/-- The fixed grounding prompt of `rag_answer` (app.py lines 56-69), with
the context block and the verbatim question interpolated. -/
def promptFor (context question : Str) : Str :=
  "\nYou are a friendly and professional AI assistant for Metricon Homes Australia.\nAnswer the customer's question using ONLY the provided context.\nBe warm, helpful and concise. Use dot points where appropriate.\nIf the answer is not in the context, say \"I don't have that information. Please contact Metricon on 1300 786 773 or visit metricon.com.au\"\n\nCONTEXT:\n".toList
    ++ context
    ++ "\n\nQUESTION:\n".toList ++ question ++ "\n\nANSWER:\n".toList

/-- The fixed refusal message of the empty-retrieval path (app.py line 40). -/
def noInfoMsg : Str :=
  "⚠️ No relevant information found. Please contact Metricon on 1300 786 773.".toList

/-- The error indicator prepended to `str(e)` in the except branch
(app.py line 88). -/
def errHeader : Str := "❌ Error: ".toList

/-- The `try` block of `rag_answer` (app.py lines 30-84). External calls
are oracles over an abstract vector type `V`: `emb` is
`embedder.encode(question).tolist()`, `qry` is `qdrant.query_points` with
the collection fixed and `limit=int(top_k)` (`top_k` is already integral),
and `llm` is the Bedrock `invoke_model` call together with the JSON
decoding of its body down to the answer text. Every `.error e` is a raised
exception whose `str()` is `e`; it propagates to the except handler. -/
def rag_body {V : Type} (emb : Str → Except Str V)
    (qry : V → Int → Except Str (List QPoint))
    (llm : Str → Except Str Str)
    (question : Str) (history : List Turn) (top_k : Int)
    (show_sources : Bool) : Except Str (List Turn × Str) :=
  match emb question with
  | .error e => .error e
  | .ok query_vec =>
    match qry query_vec top_k with
    | .error e => .error e
    | .ok points =>
      if points.isEmpty then
        .ok (history ++ [⟨.user, question⟩, ⟨.assistant, noInfoMsg⟩], [])
      else
        match collectChunks points with
        | .error e => .error e
        | .ok (context_chunks, sources) =>
          match llm (promptFor (joinWith "\n\n".toList context_chunks) question) with
          | .error e => .error e
          | .ok answer =>
            .ok (history ++ [⟨.user, question⟩, ⟨.assistant, answer⟩],
                 if show_sources then joinWith "\n\n".toList sources else [])

/-- `rag_answer` (app.py lines 29-89): the `try` body wrapped in the
`except Exception` handler, which appends the user turn and an error turn
and returns — it never re-raises. -/
def rag_answer {V : Type} (emb : Str → Except Str V)
    (qry : V → Int → Except Str (List QPoint))
    (llm : Str → Except Str Str)
    (question : Str) (history : List Turn) (top_k : Int)
    (show_sources : Bool) : List Turn × Str :=
  match rag_body emb qry llm question history top_k show_sources with
  | .ok r => r
  | .error e =>
      (history ++ [⟨.user, question⟩, ⟨.assistant, errHeader ++ e⟩], [])

/-- One point of the Qdrant collection (`PointStruct`): id, vector over an
abstract vector type, and the denormalized payload. -/
structure IndexPoint (V : Type) : Type where
  id : Nat
  vector : V
  payload : List (Str × PyVal)

/-- The payload written for one catalog record by `ingest_chunks`
(data_ingestion.py lines 55-63), fields in source order. -/
def chunkPayload (c : EnrichedChunk) : List (Str × PyVal) :=
  [("text".toList, .str c.text),
   ("title".toList, c.title),
   ("summary".toList, c.summary),
   ("keywords".toList, c.keywords),
   ("category".toList, c.category),
   ("importance".toList, c.importance),
   ("source".toList, .str c.source)]

/-- One `PointStruct` of `ingest_chunks` (data_ingestion.py lines 48-64):
the embedding input is `f"{title} {summary} {text}"`, the id is the chunk
id, the payload is the denormalized copy of the record. -/
def mkPoint {V : Type} (emb : Str → V) (c : EnrichedChunk) : IndexPoint V :=
  ⟨c.id, emb (pyStr c.title ++ " ".toList ++ pyStr c.summary ++ " ".toList ++ c.text),
   chunkPayload c⟩

/-- Qdrant upsert of a single point: replace every stored point with the
same id, or append the point if its id is new. -/
def upsert {V : Type} (store : List (IndexPoint V)) (p : IndexPoint V) :
    List (IndexPoint V) :=
  if store.any (fun q => q.id = p.id) then
    store.map (fun q => if q.id = p.id then p else q)
  else
    store ++ [p]

/-- `create_collection` (data_ingestion.py lines 26-36): delete the
collection if it exists and create a fresh empty one — whatever the
previous store held, the result is empty. -/
def create_collection {V : Type} (prev : List (IndexPoint V)) :
    List (IndexPoint V) :=
  []

/-- `ingest_chunks` (data_ingestion.py lines 41-67): build a `PointStruct`
per catalog record and upsert the whole batch into the store. -/
def ingest_chunks {V : Type} (emb : Str → V) (catalog : List EnrichedChunk)
    (store : List (IndexPoint V)) : List (IndexPoint V) :=
  (catalog.map (mkPoint emb)).foldl upsert store

/-- One full index rebuild (`create_collection()` then `ingest_chunks()`,
data_ingestion.py lines 72-75), from an arbitrary previous index state. -/
def rebuild_index {V : Type} (emb : Str → V) (catalog : List EnrichedChunk)
    (prev : List (IndexPoint V)) : List (IndexPoint V) :=
  ingest_chunks emb catalog (create_collection prev)

/-- Forget the vector of an index point, keeping id and payload. -/
def stripVec {V : Type} (p : IndexPoint V) : Nat × List (Str × PyVal) :=
  (p.id, p.payload)

/-- Upsert on vector-free points. -/
def upsertS (store : List (Nat × List (Str × PyVal)))
    (q : Nat × List (Str × PyVal)) : List (Nat × List (Str × PyVal)) :=
  if store.any (fun r => r.1 = q.1) then
    store.map (fun r => if r.1 = q.1 then q else r)
  else
    store ++ [q]

/-! ## The category/importance invariant of the data model -/

/-- The closed category set offered to the model in the enrichment prompt
(chunker.py line 67). -/
def allowedCategories : List Str :=
  ["Building Process".toList, "Costs & Finance".toList, "Why Metricon".toList,
   "FAQ".toList, "General".toList]

/-- The category field holds one of the five allowed category strings. -/
def validCategory : PyVal → Bool
  | .str s => allowedCategories.contains s
  | _ => false

/-- The importance field holds an integer in `[1, 10]`. -/
def validImportance : PyVal → Bool
  | .int n => decide (1 ≤ n) && decide (n ≤ 10)
  | _ => false

/-- The data-model invariant claimed for every catalog record. -/
def validChunk (c : EnrichedChunk) : Bool :=
  validCategory c.category && validImportance c.importance

/-! ## Concrete fixtures used by witnesses and counterexamples -/

/-- A single 60-character word: one raw chunk surviving the > 50 filter. -/
def w60 : Str := List.replicate 60 'a'

/-- A document of exactly 400 one-character whitespace-separated tokens. -/
def doc400 : Str := joinWith " ".toList (List.replicate 400 ['a'])

/-- An enrichment oracle whose external call always raises. -/
def llmNone : Str → Option PyVal := fun _ => none

/-- An enrichment oracle returning a parsed object with an out-of-enum
category and an out-of-range importance. -/
def llmBanana : Str → Option PyVal := fun _ =>
  some (.dict [("category".toList, .str "Banana".toList),
               ("importance".toList, .int 99)])

/-- An enrichment oracle returning a parsed object with only the title
field present, the other four expected fields missing. -/
def llmTitleOnly : Str → Option PyVal := fun _ =>
  some (.dict [("title".toList, .str "T".toList)])

/-- Two one-chunk documents. -/
def docsTwo : List (Str × Str) := [("d1".toList, w60), ("d2".toList, w60)]

/-- The catalog the pipeline produces from `docsTwo` under `llmNone`. -/
def catTwo : List EnrichedChunk :=
  [⟨0, "d1".toList, w60, .str "General Information".toList, .str w60,
    .list [], .str "General".toList, .int 5⟩,
   ⟨1, "d2".toList, w60, .str "General Information".toList, .str w60,
    .list [], .str "General".toList, .int 5⟩]

/-- A single one-chunk document. -/
def docsOne : List (Str × Str) := [("d".toList, w60)]

/-- The catalog the pipeline produces from `docsOne` under `llmBanana`. -/
def catBanana : List EnrichedChunk :=
  [⟨0, "d".toList, w60, .str [], .str [], .list [],
    .str "Banana".toList, .int 99⟩]

/-- A trivial embedding oracle over the unit vector space. -/
def embU : Str → Except Str Unit := fun _ => .ok ()

/-- An embedding oracle that always raises. -/
def embBoom : Str → Except Str Unit := fun _ => .error "boom".toList

/-- A retrieval oracle returning no points. -/
def qryEmpty : Unit → Int → Except Str (List QPoint) := fun _ _ => .ok []

/-- A retrieved point with a complete payload. -/
def ptFull : QPoint :=
  ⟨[("category".toList, .str "FAQ".toList), ("title".toList, .str "T".toList),
    ("text".toList, .str "body".toList), ("source".toList, .str "s.pdf".toList),
    ("importance".toList, .int 7)]⟩

/-- A retrieval oracle returning exactly `ptFull`. -/
def qryOne : Unit → Int → Except Str (List QPoint) := fun _ _ => .ok [ptFull]

/-- An answering oracle that always succeeds. -/
def llmOk : Str → Except Str Str := fun _ => .ok "fine".toList

/-- An answering oracle that always raises. -/
def llmDown : Str → Except Str Str := fun _ => .error "llm down".toList

/-! ## Helper lemmas about the segmenter -/

/-- Invariant of the `str.split()` pass: with a whitespace-free accumulator,
every produced word is nonempty and whitespace-free. -/
theorem wordsAux_sound (s : Str) : ∀ (cur : Str),
    (∀ c ∈ cur, c.isWhitespace = false) →
    ∀ w ∈ wordsAux s cur, w ≠ [] ∧ ∀ c ∈ w, c.isWhitespace = false := by
  induction s with
  | nil =>
    intro cur hcur w hw
    simp only [wordsAux] at hw
    split at hw
    · simp at hw
    · next hne =>
      simp only [List.mem_singleton] at hw
      subst hw
      refine ⟨by simpa using hne, ?_⟩
      intro c hc
      exact hcur c (List.mem_reverse.mp hc)
  | cons c rest ih =>
    intro cur hcur w hw
    simp only [wordsAux] at hw
    split at hw
    · next hws =>
      split at hw
      · exact ih [] (by simp) w hw
      · next hne =>
        rcases List.mem_cons.mp hw with h | h
        · subst h
          refine ⟨by simpa using hne, ?_⟩
          intro a ha
          exact hcur a (List.mem_reverse.mp ha)
        · exact ih [] (by simp) w h
    · next hcws =>
      refine ih (c :: cur) ?_ w hw
      intro a ha
      rcases List.mem_cons.mp ha with h | h
      · subst h
        simpa using hcws
      · exact hcur a h

/-- Every word of `pySplit` is nonempty and contains no whitespace. -/
theorem pySplit_sound (s : Str) :
    ∀ w ∈ pySplit s, w ≠ [] ∧ ∀ c ∈ w, c.isWhitespace = false :=
  wordsAux_sound s [] (by simp)

/-- A space-join of `n` nonempty words (with a nonempty separator) has at
least `2 * n - 1` characters. -/
theorem joinWith_length_ge (sep : Str) (hsep : 1 ≤ sep.length) :
    ∀ ws : List Str, (∀ w ∈ ws, w ≠ []) →
    2 * ws.length - 1 ≤ (joinWith sep ws).length := by
  intro ws
  induction ws with
  | nil => simp [joinWith]
  | cons w tail ih =>
    intro h
    cases tail with
    | nil =>
      have hw : w ≠ [] := h w (by simp)
      have : 1 ≤ w.length := List.length_pos.mpr hw
      simpa [joinWith] using this
    | cons w' ws' =>
      have hw : w ≠ [] := h w (by simp)
      have hlen : 1 ≤ w.length := List.length_pos.mpr hw
      have ih' := ih (fun x hx => h x (List.mem_cons_of_mem _ hx))
      simp only [joinWith, List.length_append, List.length_cons] at ih' ⊢
      omega

/-- The first character of a join is the first character of the first word. -/
theorem joinWith_head? (sep : Str) (w : Str) (ws : List Str) (hw : w ≠ []) :
    (joinWith sep (w :: ws)).head? = w.head? := by
  cases ws with
  | nil => simp [joinWith]
  | cons w' ws' =>
    cases w with
    | nil => exact absurd rfl hw
    | cons c t => simp [joinWith]

/-- A list whose `head?` is defined is nonempty. -/
theorem ne_nil_of_head?_some {α : Type} {l : List α} {c : α}
    (h : l.head? = some c) : l ≠ [] := by
  cases l with
  | nil => simp at h
  | cons a t => simp

/-- The last character of a join is the last character of the last word. -/
theorem joinWith_getLast? (sep : Str) :
    ∀ (ws : List Str) (w : Str), (∀ u ∈ w :: ws, u ≠ []) →
    ∃ v, v ∈ w :: ws ∧ (joinWith sep (w :: ws)).getLast? = v.getLast? := by
  intro ws
  induction ws with
  | nil =>
    intro w _
    exact ⟨w, by simp, by simp [joinWith]⟩
  | cons w' ws' ih =>
    intro w h
    obtain ⟨v, hv, hlast⟩ := ih w' (fun u hu => h u (List.mem_cons_of_mem _ hu))
    refine ⟨v, List.mem_cons_of_mem _ hv, ?_⟩
    have hne : joinWith sep (w' :: ws') ≠ [] := by
      have hw' : w' ≠ [] := h w' (by simp)
      have hh := joinWith_head? sep w' ws' hw'
      cases hcw : w'.head? with
      | none => cases w' with
        | nil => exact absurd rfl hw'
        | cons a t => simp at hcw
      | some c => exact ne_nil_of_head?_some (hh.trans hcw)
    calc (joinWith sep (w :: w' :: ws')).getLast?
        = ((w ++ sep) ++ joinWith sep (w' :: ws')).getLast? := by
          simp [joinWith]
      _ = (joinWith sep (w' :: ws')).getLast? :=
          List.getLast?_append_of_ne_nil _ hne
      _ = v.getLast? := hlast

/-- `dropWhile` is the identity when the head fails the predicate. -/
theorem dropWhile_eq_self_of_head {α : Type} (p : α → Bool) (l : List α)
    (h : ∀ c, l.head? = some c → p c = false) : l.dropWhile p = l := by
  cases l with
  | nil => rfl
  | cons a t =>
    have := h a rfl
    simp [List.dropWhile_cons, this]

/-- `pyStrip` is the identity on a string whose two ends are not whitespace. -/
theorem pyStrip_eq_self (s : Str)
    (h1 : ∀ c, s.head? = some c → c.isWhitespace = false)
    (h2 : ∀ c, s.getLast? = some c → c.isWhitespace = false) :
    pyStrip s = s := by
  unfold pyStrip
  rw [dropWhile_eq_self_of_head _ _ h1]
  rw [dropWhile_eq_self_of_head _ _
    (fun c hc => h2 c (by rwa [List.head?_reverse] at hc))]
  exact List.reverse_reverse s

/-- On a nonempty pack of nonempty whitespace-free words, `pyStrip` leaves
the space-join unchanged. -/
theorem pyStrip_joinWith (w : Str) (ws : List Str)
    (h : ∀ u ∈ w :: ws, u ≠ [] ∧ ∀ c ∈ u, c.isWhitespace = false) :
    pyStrip (joinWith " ".toList (w :: ws)) = joinWith " ".toList (w :: ws) := by
  refine pyStrip_eq_self _ ?_ ?_
  · intro c hc
    rw [joinWith_head? _ _ _ (h w (by simp)).1] at hc
    exact (h w (by simp)).2 c (List.mem_of_mem_head? hc)
  · intro c hc
    obtain ⟨v, hv, hlast⟩ := joinWith_getLast? " ".toList ws w
      (fun u hu => (h u hu).1)
    rw [hlast] at hc
    have : c ∈ v := List.mem_of_mem_getLast? hc
    exact (h v hv).2 c this

/-- One loop round with the guard true. -/
theorem splitLoop_step_true (words : List Str) (cs ov : Int) (fuel : Nat)
    (start : Int) (acc : List Str) (h : start < (words.length : Int)) :
    splitLoop words cs ov (fuel + 1) start acc =
      splitLoop words cs ov fuel (start + (cs - ov))
        (if 50 < (pyStrip (joinWith " ".toList
              (pySlice words start (start + cs)))).length
         then acc ++ [joinWith " ".toList (pySlice words start (start + cs))]
         else acc) := by
  simp [splitLoop, h]

/-- One loop round with the guard false. -/
theorem splitLoop_step_false (words : List Str) (cs ov : Int) (fuel : Nat)
    (start : Int) (acc : List Str) (h : ¬ start < (words.length : Int)) :
    splitLoop words cs ov (fuel + 1) start acc = some acc := by
  simp [splitLoop, h]

/-- With a positive stride, the loop finishes within `len - start` rounds
plus one final test. -/
theorem splitLoop_terminates (words : List Str) (chunk_size overlap : Int)
    (hstride : 1 ≤ chunk_size - overlap) :
    ∀ (k : Nat) (start : Int) (acc : List Str),
    (words.length : Int) - start ≤ (k : Int) →
    (splitLoop words chunk_size overlap (k + 1) start acc).isSome := by
  intro k
  induction k with
  | zero =>
    intro start acc h
    have : ¬ start < (words.length : Int) := by omega
    simp [splitLoop, this]
  | succ k ih =>
    intro start acc h
    by_cases hlt : start < (words.length : Int)
    · simp only [splitLoop, hlt, if_true]
      exact ih _ _ (by omega)
    · simp [splitLoop, hlt]

/-- With a non-positive stride and the start strictly below the word count,
the loop never returns, whatever the fuel. -/
theorem splitLoop_diverges (words : List Str) (chunk_size overlap : Int)
    (hstride : chunk_size - overlap ≤ 0) :
    ∀ (fuel : Nat) (start : Int) (acc : List Str),
    start < (words.length : Int) →
    splitLoop words chunk_size overlap fuel start acc = none := by
  intro fuel
  induction fuel with
  | zero => intro start acc _; rfl
  | succ fuel ih =>
    intro start acc hlt
    simp only [splitLoop, hlt, if_true]
    exact ih _ _ (by omega)

/-- `split_text` with a positive stride always returns a value. -/
theorem split_text_isSome (text : Str) (chunk_size overlap : Int)
    (hstride : 1 ≤ chunk_size - overlap) :
    (split_text text chunk_size overlap).isSome := by
  unfold split_text split_text_fuel
  exact splitLoop_terminates _ _ _ hstride _ 0 [] (by omega)

/-! ## Helper lemmas about the corpus builder -/

/-- A catalog record built at counter value `n` carries id `n`. -/
theorem buildEntry_id (llm : Str → Option PyVal) (n : Nat) (src c : Str)
    (e : EnrichedChunk) (h : buildEntry llm n src c = some e) : e.id = n := by
  unfold buildEntry at h
  split at h
  · cases h
    rfl
  · cases h

/-- The inner enrichment loop assigns the consecutive ids
`n, n+1, ..., n + chunks.length - 1`, one per raw chunk. -/
theorem enrichAll_ids (llm : Str → Option PyVal) (src : Str) :
    ∀ (chunks : List Str) (n : Nat) (es : List EnrichedChunk),
    enrichAll llm src chunks n = some es →
    es.map (fun e => e.id) = List.range' n chunks.length ∧
    es.length = chunks.length := by
  intro chunks
  induction chunks with
  | nil =>
    intro n es h
    cases h
    simp
  | cons c cs ih =>
    intro n es h
    simp only [enrichAll] at h
    cases he : buildEntry llm n src c with
    | none => rw [he] at h; cases h
    | some e =>
      rw [he] at h
      cases hr : enrichAll llm src cs (n + 1) with
      | none => rw [hr] at h; cases h
      | some es' =>
        rw [hr] at h
        cases h
        obtain ⟨hmap, hlen⟩ := ih (n + 1) es' hr
        refine ⟨?_, by simp [hlen]⟩
        simp [List.range'_succ, buildEntry_id llm n src c e he, hmap]

/-- The outer document loop, started at counter `n`, produces a catalog
whose ids are `n, n+1, ...` in order, and whose length is the total number
of raw chunks of the processed documents. -/
theorem buildDocs_ids (llm : Str → Option PyVal) :
    ∀ (docs : List (Str × Str)) (n : Nat) (cat : List EnrichedChunk),
    buildDocs llm docs n = some cat →
    cat.map (fun e => e.id) = List.range' n cat.length ∧
    totalRawChunks docs = some cat.length := by
  intro docs
  induction docs with
  | nil =>
    intro n cat h
    cases h
    simp [totalRawChunks]
  | cons d docs ih =>
    intro n cat h
    obtain ⟨source, text⟩ := d
    simp only [buildDocs] at h
    cases hs : split_text text 400 50 with
    | none => simp only [hs] at h; cases h
    | some chunks =>
      simp only [hs] at h
      cases he : enrichAll llm source chunks n with
      | none => simp only [he] at h; cases h
      | some es =>
        simp only [he] at h
        cases hr : buildDocs llm docs (n + chunks.length) with
        | none => simp only [hr] at h; cases h
        | some rest =>
          simp only [hr, Option.some.injEq] at h
          subst h
          obtain ⟨hmap1, hlen1⟩ := enrichAll_ids llm source chunks n es he
          obtain ⟨hmap2, htot⟩ := ih (n + chunks.length) rest hr
          constructor
          · rw [List.map_append, hmap1, hmap2, List.length_append, hlen1,
              List.range'_append_1, Nat.add_comm]
          · simp [totalRawChunks, hs, htot, hlen1]

/-! ## Helper lemmas about the index loader -/

/-- Upserting commutes with forgetting vectors. -/
theorem stripVec_upsert {V : Type} (s : List (IndexPoint V)) (p : IndexPoint V) :
    (upsert s p).map stripVec = upsertS (s.map stripVec) (stripVec p) := by
  unfold upsert upsertS
  have hany : ∀ t : List (IndexPoint V),
      (t.map stripVec).any (fun r => r.1 = (stripVec p).1)
        = t.any (fun q => q.id = p.id) := by
    intro t
    induction t with
    | nil => rfl
    | cons a t ih =>
      simp only [List.map_cons, List.any_cons, ih]
      simp [stripVec]
  rw [hany]
  split
  · rw [List.map_map, List.map_map]
    refine List.map_congr_left ?_
    intro q _
    by_cases h : q.id = p.id <;> simp [stripVec, Function.comp, h]
  · simp [stripVec]

/-- Batch upserting commutes with forgetting vectors. -/
theorem stripVec_foldl_upsert {V : Type} :
    ∀ (pts : List (IndexPoint V)) (store : List (IndexPoint V)),
    (pts.foldl upsert store).map stripVec
      = (pts.map stripVec).foldl upsertS (store.map stripVec) := by
  intro pts
  induction pts with
  | nil => intro store; rfl
  | cons p ps ih =>
    intro store
    simp only [List.foldl_cons, List.map_cons]
    rw [ih, stripVec_upsert]

/-- The id/payload part of a built point depends only on the catalog
record, not on the embedding service. -/
theorem stripVec_mkPoint {V : Type} (emb : Str → V) (c : EnrichedChunk) :
    stripVec (mkPoint emb c) = (c.id, chunkPayload c) := rfl

/-- If the enrichment oracle only ever parses to objects whose category
(after the `.get` default) is one of the five allowed strings and whose
importance (after the `.get` default) is an integer in `[1,10]`, then every
record the builder produces satisfies the data-model invariant. -/
theorem buildEntry_valid (llm : Str → Option PyVal)
    (hllm : ∀ t kvs, llm t = some (.dict kvs) →
      validCategory (pyGetD kvs "category".toList (.str "General".toList)) = true ∧
      validImportance (pyGetD kvs "importance".toList (.int 5)) = true)
    (n : Nat) (src chunk : Str) (e : EnrichedChunk)
    (h : buildEntry llm n src chunk = some e) : validChunk e = true := by
  unfold buildEntry enrich_chunk at h
  cases hl : llm chunk with
  | none =>
    simp only [hl, fallbackMeta, Option.some.injEq] at h
    subst h
    rfl
  | some v =>
    simp only [hl] at h
    cases v with
    | dict kvs =>
      simp only [Option.some.injEq] at h
      subst h
      obtain ⟨h1, h2⟩ := hllm chunk kvs hl
      simp only [validChunk, h1, h2]
      rfl
    | str s => cases h
    | int m => cases h
    | list xs => cases h

/-- Invariant propagation through the inner enrichment loop. -/
theorem enrichAll_valid (llm : Str → Option PyVal)
    (hllm : ∀ t kvs, llm t = some (.dict kvs) →
      validCategory (pyGetD kvs "category".toList (.str "General".toList)) = true ∧
      validImportance (pyGetD kvs "importance".toList (.int 5)) = true)
    (src : Str) :
    ∀ (chunks : List Str) (n : Nat) (es : List EnrichedChunk),
    enrichAll llm src chunks n = some es →
    ∀ e ∈ es, validChunk e = true := by
  intro chunks
  induction chunks with
  | nil =>
    intro n es h
    cases h
    simp
  | cons c cs ih =>
    intro n es h
    simp only [enrichAll] at h
    cases he : buildEntry llm n src c with
    | none => simp only [he] at h; cases h
    | some e =>
      simp only [he] at h
      cases hr : enrichAll llm src cs (n + 1) with
      | none => simp only [hr] at h; cases h
      | some es' =>
        simp only [hr, Option.some.injEq] at h
        subst h
        intro x hx
        rcases List.mem_cons.mp hx with hx | hx
        · subst hx
          exact buildEntry_valid llm hllm n src c x he
        · exact ih (n + 1) es' hr x hx

/-- Invariant propagation through the outer document loop. -/
theorem buildDocs_valid (llm : Str → Option PyVal)
    (hllm : ∀ t kvs, llm t = some (.dict kvs) →
      validCategory (pyGetD kvs "category".toList (.str "General".toList)) = true ∧
      validImportance (pyGetD kvs "importance".toList (.int 5)) = true) :
    ∀ (docs : List (Str × Str)) (n : Nat) (cat : List EnrichedChunk),
    buildDocs llm docs n = some cat →
    ∀ e ∈ cat, validChunk e = true := by
  intro docs
  induction docs with
  | nil =>
    intro n cat h
    cases h
    simp
  | cons d docs ih =>
    intro n cat h
    obtain ⟨source, text⟩ := d
    simp only [buildDocs] at h
    cases hs : split_text text 400 50 with
    | none => simp only [hs] at h; cases h
    | some chunks =>
      simp only [hs] at h
      cases he : enrichAll llm source chunks n with
      | none => simp only [he] at h; cases h
      | some es =>
        simp only [he] at h
        cases hr : buildDocs llm docs (n + chunks.length) with
        | none => simp only [hr] at h; cases h
        | some rest =>
          simp only [hr, Option.some.injEq] at h
          subst h
          intro e hx
          rcases List.mem_append.mp hx with hx | hx
          · exact enrichAll_valid llm hllm source chunks n es he e hx
          · exact ih (n + chunks.length) rest hr e hx

/-! ## Claim theorems -/

/-- C1: whenever the external language-model call in `enrich_chunk` fails,
times out, or returns output that cannot be parsed into the expected
structure, `enrich_chunk` returns exactly the deterministic default metadata
`{title: "General Information", summary: first 100 characters of the chunk
text, keywords: [], category: "General", importance: 5}` — a value, never a
re-raised failure. -/
theorem enrich_chunk_fallback_exact (llm : Str → Option PyVal)
    (chunk_text source : Str) (h : llm chunk_text = none) :
    enrich_chunk llm chunk_text source =
      PyVal.dict [("title".toList, .str "General Information".toList),
                  ("summary".toList, .str (chunk_text.take 100)),
                  ("keywords".toList, .list []),
                  ("category".toList, .str "General".toList),
                  ("importance".toList, .int 5)] := by
  simp [enrich_chunk, h, fallbackMeta]

/-- Witness for C1 on a concrete chunk and a concrete failing call. -/
theorem enrich_chunk_fallback_exact_witness :
    llmNone w60 = none ∧
    enrich_chunk llmNone w60 "d".toList =
      PyVal.dict [("title".toList, .str "General Information".toList),
                  ("summary".toList, .str (w60.take 100)),
                  ("keywords".toList, .list []),
                  ("category".toList, .str "General".toList),
                  ("importance".toList, .int 5)] :=
  ⟨rfl, enrich_chunk_fallback_exact llmNone w60 "d".toList rfl⟩

/-- C10: when the enrichment call succeeds and parses as any JSON object —
in particular one that lacks some of the five expected fields — the
pipeline's record builder does not fail; each field is looked up
independently, so a present field is kept verbatim and a missing field gets
its own per-field default — title `""`, summary `""`, keywords `[]`,
category `"General"`, importance `5` — and the title default is the empty
string, not the whole-record fallback's `"General Information"`. -/
theorem buildEntry_per_field_defaults (llm : Str → Option PyVal)
    (n : Nat) (source chunk : Str) (kvs : List (Str × PyVal))
    (h : llm chunk = some (.dict kvs)) :
    buildEntry llm n source chunk =
      some ⟨n, source, chunk,
            pyGetD kvs "title".toList (.str []),
            pyGetD kvs "summary".toList (.str []),
            pyGetD kvs "keywords".toList (.list []),
            pyGetD kvs "category".toList (.str "General".toList),
            pyGetD kvs "importance".toList (.int 5)⟩ ∧
    (∀ (k : Str) (d v : PyVal), kvs.lookup k = some v → pyGetD kvs k d = v) ∧
    (∀ (k : Str) (d : PyVal), kvs.lookup k = none → pyGetD kvs k d = d) ∧
    PyVal.str [] ≠ PyVal.str "General Information".toList := by
  refine ⟨?_, ?_, ?_, ?_⟩
  · simp only [buildEntry, enrich_chunk, h]
  · intro k d v hv
    simp [pyGetD, hv]
  · intro k d hnone
    simp [pyGetD, hnone]
  · intro hcontra
    have : ([] : Str) = "General Information".toList := PyVal.str.inj hcontra
    exact absurd this (by decide)

/-- Witness for C10: a successful call returning an object with only the
title present — the title is kept verbatim while the other four fields get
their per-field defaults. -/
theorem buildEntry_per_field_defaults_witness :
    llmTitleOnly w60 = some (.dict [("title".toList, .str "T".toList)]) ∧
    buildEntry llmTitleOnly 0 "d".toList w60 =
      some ⟨0, "d".toList, w60, .str "T".toList, .str [], .list [],
            .str "General".toList, .int 5⟩ :=
  ⟨rfl, ((buildEntry_per_field_defaults llmTitleOnly 0 "d".toList w60
      [("title".toList, .str "T".toList)] rfl).1).trans rfl⟩

/-- C5 (failing part, evaluated at the bug): for `chunk_size ≤ overlap` and
a nonempty token list, the `split_text` loop never terminates — it returns
nothing at every fuel bound, instead of raising a configuration error as
the specification requires. -/
theorem split_text_nonpositive_stride_diverges (chunk_size overlap : Int)
    (text : Str) (h : chunk_size ≤ overlap)
    (hne : 0 < (pySplit text).length) :
    ∀ fuel : Nat, split_text_fuel fuel text chunk_size overlap = none := by
  intro fuel
  unfold split_text_fuel
  exact splitLoop_diverges _ _ _ (by omega) fuel 0 [] (by exact_mod_cast hne)

/-- Witness for C5: the concrete failing input `chunk_size = overlap = 50`
on a two-word text; even a large fuel yields no result. -/
theorem split_text_nonpositive_stride_diverges_witness :
    (50 : Int) ≤ 50 ∧ 0 < (pySplit "hello world".toList).length ∧
    split_text_fuel 1000 "hello world".toList 50 50 = none :=
  ⟨by decide, by decide,
   split_text_nonpositive_stride_diverges 50 50 "hello world".toList
     (by decide) (by decide) 1000⟩

/-- C4: for every run of the corpus builder that completes, the resulting
catalog's ids are exactly `0 .. N-1` — unique, contiguous from 0, increasing
in processing order across the whole corpus, not reset per document — where
`N` is the total number of raw chunks across all documents. -/
theorem pipeline_ids_contiguous (llm : Str → Option PyVal)
    (documents : List (Str × Str)) (catalog : List EnrichedChunk)
    (h : agentic_chunking_pipeline llm documents = some catalog) :
    catalog.map (fun e => e.id) = List.range catalog.length ∧
    totalRawChunks documents = some catalog.length := by
  obtain ⟨hmap, htot⟩ := buildDocs_ids llm documents 0 catalog h
  exact ⟨by rw [hmap, List.range_eq_range'], htot⟩

/-- Witness for C4: two documents of one raw chunk each give ids `[0, 1]`,
the global counter not resetting at the document boundary. -/
theorem pipeline_ids_contiguous_witness :
    agentic_chunking_pipeline llmNone docsTwo = some catTwo ∧
    catTwo.map (fun e => e.id) = List.range catTwo.length ∧
    totalRawChunks docsTwo = some catTwo.length :=
  ⟨rfl, pipeline_ids_contiguous llmNone docsTwo catTwo rfl⟩

/-- C7 counterexample: the pipeline copies the model's category and
importance unvalidated, so a successful enrichment response with category
`"Banana"` and importance `99` yields a catalog record outside the claimed
five-member enumeration and `[1,10]` range. -/
theorem pipeline_category_unvalidated_cex :
    agentic_chunking_pipeline llmBanana docsOne = some catBanana ∧
    catBanana.all validChunk = false :=
  ⟨rfl, rfl⟩

/-- C7 amended: records produced through the fallback path or with missing
category/importance fields do satisfy the invariant (category `"General"`,
importance 5), and the invariant holds for the whole catalog exactly when
every successfully parsed response keeps its (defaulted) category within
the five-string enumeration and its (defaulted) importance an integer in
`[1,10]` — the pipeline itself performs no validation. -/
theorem pipeline_invariant_conditional (llm : Str → Option PyVal)
    (documents : List (Str × Str)) (catalog : List EnrichedChunk)
    (hllm : ∀ t kvs, llm t = some (.dict kvs) →
      validCategory (pyGetD kvs "category".toList (.str "General".toList)) = true ∧
      validImportance (pyGetD kvs "importance".toList (.int 5)) = true)
    (h : agentic_chunking_pipeline llm documents = some catalog) :
    catalog.all validChunk = true := by
  refine List.all_eq_true.mpr ?_
  intro e he
  exact buildDocs_valid llm hllm documents 0 catalog h e he

/-- Witness for the amended C7: under an always-failing enrichment call the
whole catalog goes through the fallback and satisfies the invariant. -/
theorem pipeline_invariant_conditional_witness :
    agentic_chunking_pipeline llmNone docsTwo = some catTwo ∧
    catTwo.all validChunk = true :=
  ⟨rfl, pipeline_invariant_conditional llmNone docsTwo catTwo
    (fun _ _ h => Option.noConfusion h) rfl⟩

/-- C6 counterexample: a document of exactly `chunk_size = 400` tokens does
NOT yield exactly one RawChunk under the default parameters — the second
window (the trailing 50 tokens, necessarily longer than 50 characters once
joined) is also emitted, giving two chunks. -/
theorem split_text_full_window_two_chunks_cex :
    (split_text doc400 400 50).map List.length = some 2 ∧
    (split_text doc400 400 50).map List.length ≠ some 1 := by
  constructor
  · rfl
  · intro hc
    rw [show (split_text doc400 400 50).map List.length = some 2 from rfl] at hc
    exact absurd (Option.some.inj hc) (by decide)

/-- C6 amended: for every document whose raw text splits into exactly 400
tokens, `split_text` with default parameters yields exactly TWO RawChunks:
the whole document's tokens re-joined with single spaces, followed by the
trailing 50-token overlap window re-joined with single spaces. -/
theorem split_text_full_window_amended (text : Str)
    (h : (pySplit text).length = 400) :
    split_text text 400 50 =
      some [joinWith " ".toList (pySplit text),
            joinWith " ".toList ((pySplit text).drop 350)] := by
  have hsound := pySplit_sound text
  unfold split_text split_text_fuel
  rw [h]
  generalize hgen : pySplit text = ws at h hsound ⊢
  obtain ⟨w, tail, rfl⟩ : ∃ a b, ws = a :: b := by
    cases ws with
    | nil => simp at h
    | cons a b => exact ⟨a, b, rfl⟩
  have h1 : pySlice (w :: tail) 0 (0 + 400) = w :: tail := by
    have h' : tail.length ≤ 399 := by
      simp only [List.length_cons] at h
      omega
    simp [pySlice, pyIdx, h, h']
  have hdrop : ((w :: tail).drop 350).length = 50 := by
    rw [List.length_drop, h]
  have h2 : pySlice (w :: tail) 350 (350 + 400) = (w :: tail).drop 350 := by
    have h' : tail.length ≤ 399 := by
      simp only [List.length_cons] at h
      omega
    simp [pySlice, pyIdx, h, h']
  have hstrip1 : pyStrip (joinWith " ".toList (w :: tail))
      = joinWith " ".toList (w :: tail) :=
    pyStrip_joinWith w tail hsound
  have hlen1 : 50 < (pyStrip (joinWith " ".toList (w :: tail))).length := by
    rw [hstrip1]
    have hj := joinWith_length_ge " ".toList (by decide) (w :: tail)
      (fun u hu => (hsound u hu).1)
    omega
  have hsub : ∀ u ∈ (w :: tail).drop 350,
      u ≠ [] ∧ ∀ c ∈ u, c.isWhitespace = false :=
    fun u hu => hsound u (List.mem_of_mem_drop hu)
  obtain ⟨w2, tail2, hd2⟩ : ∃ a b, (w :: tail).drop 350 = a :: b := by
    cases hdd : (w :: tail).drop 350 with
    | nil => rw [hdd] at hdrop; simp at hdrop
    | cons a b => exact ⟨a, b, rfl⟩
  have hstrip2 : pyStrip (joinWith " ".toList ((w :: tail).drop 350))
      = joinWith " ".toList ((w :: tail).drop 350) := by
    rw [hd2]
    exact pyStrip_joinWith w2 tail2 (fun u hu => hsub u (hd2 ▸ hu))
  have hlen2 : 50 < (pyStrip (joinWith " ".toList ((w :: tail).drop 350))).length := by
    rw [hstrip2]
    have hj := joinWith_length_ge " ".toList (by decide) ((w :: tail).drop 350)
      (fun u hu => (hsub u hu).1)
    omega
  rw [splitLoop_step_true _ _ _ 400 0 [] (by rw [h]; norm_num)]
  rw [h1, if_pos hlen1]
  norm_num
  rw [show (400 : Nat) = 399 + 1 from rfl]
  rw [splitLoop_step_true _ _ _ 399 350 _ (by rw [h]; norm_num)]
  rw [h2, if_pos hlen2]
  norm_num
  rw [show (399 : Nat) = 398 + 1 from rfl]
  rw [splitLoop_step_false _ _ _ 398 700 _ (by rw [h]; norm_num)]

/-- Witness for the amended C6 at the concrete 400-token document. -/
theorem split_text_full_window_amended_witness :
    (pySplit doc400).length = 400 ∧
    split_text doc400 400 50 =
      some [joinWith " ".toList (pySplit doc400),
            joinWith " ".toList ((pySplit doc400).drop 350)] :=
  ⟨rfl, split_text_full_window_amended doc400 rfl⟩

/-- C3: when retrieval succeeds with an empty result, `rag_answer` appends
the user turn and an assistant turn containing exactly the fixed refusal
message, and returns an empty source-summary string — for every answering
oracle `llm` simultaneously, so no language-model call can influence (or be
needed for) the result. -/
theorem rag_answer_no_context_path {V : Type} (emb : Str → Except Str V)
    (qry : V → Int → Except Str (List QPoint)) (llm : Str → Except Str Str)
    (question : Str) (history : List Turn) (top_k : Int) (show_sources : Bool)
    (v : V) (hemb : emb question = .ok v) (hqry : qry v top_k = .ok []) :
    rag_answer emb qry llm question history top_k show_sources =
      (history ++ [⟨.user, question⟩, ⟨.assistant, noInfoMsg⟩], []) := by
  unfold rag_answer rag_body
  simp [hemb, hqry]

/-- Witness for C3 with concrete oracles returning zero points. -/
theorem rag_answer_no_context_path_witness :
    embU "q".toList = .ok () ∧ qryEmpty () 3 = .ok [] ∧
    rag_answer embU qryEmpty llmOk "q".toList [] 3 true =
      ([⟨.user, "q".toList⟩, ⟨.assistant, noInfoMsg⟩], []) :=
  ⟨rfl, rfl, by
    have h := rag_answer_no_context_path embU qryEmpty llmOk "q".toList [] 3
      true () rfl rfl
    simpa using h⟩

/-- C2: every exception raised inside the guarded body of `rag_answer` —
at the embedding call, the retrieval call, the payload accesses of the
context-building loop, or the generation call — propagates to the `except`
handler, which appends the user turn and an assistant turn carrying the
visible error indicator plus the failure message, and returns the
well-formed updated history instead of re-raising. -/
theorem rag_answer_failure_path {V : Type} (emb : Str → Except Str V)
    (qry : V → Int → Except Str (List QPoint)) (llm : Str → Except Str Str)
    (question : Str) (history : List Turn) (top_k : Int)
    (show_sources : Bool) :
    (∀ e, rag_body emb qry llm question history top_k show_sources = .error e →
      rag_answer emb qry llm question history top_k show_sources =
        (history ++ [⟨.user, question⟩, ⟨.assistant, errHeader ++ e⟩], [])) ∧
    (∀ e, emb question = .error e →
      rag_body emb qry llm question history top_k show_sources = .error e) ∧
    (∀ v e, emb question = .ok v → qry v top_k = .error e →
      rag_body emb qry llm question history top_k show_sources = .error e) ∧
    (∀ v p ps e, emb question = .ok v → qry v top_k = .ok (p :: ps) →
      collectChunks (p :: ps) = .error e →
      rag_body emb qry llm question history top_k show_sources = .error e) ∧
    (∀ v p ps cs ss e, emb question = .ok v → qry v top_k = .ok (p :: ps) →
      collectChunks (p :: ps) = .ok (cs, ss) →
      llm (promptFor (joinWith "\n\n".toList cs) question) = .error e →
      rag_body emb qry llm question history top_k show_sources = .error e) := by
  refine ⟨?_, ?_, ?_, ?_, ?_⟩
  · intro e h
    unfold rag_answer
    rw [h]
  · intro e h
    unfold rag_body
    rw [h]
  · intro v e h1 h2
    unfold rag_body
    simp [h1, h2]
  · intro v p ps e h1 h2 h3
    unfold rag_body
    simp [h1, h2, h3]
  · intro v p ps cs ss e h1 h2 h3 h4
    unfold rag_body
    simp at h4
    simp [h1, h2, h3, h4]

/-- Witness for C2: a raising embedder produces exactly the in-conversation
error turn. -/
theorem rag_answer_failure_path_witness :
    embBoom "q".toList = Except.error "boom".toList ∧
    rag_answer embBoom qryEmpty llmOk "q".toList [] 3 true =
      ([⟨.user, "q".toList⟩, ⟨.assistant, errHeader ++ "boom".toList⟩], []) :=
  ⟨rfl, by
    have hall := rag_answer_failure_path embBoom qryEmpty llmOk "q".toList []
      3 true
    have hbody := hall.2.1 "boom".toList rfl
    have h := hall.1 "boom".toList hbody
    simpa using h⟩

/-- C9: every invocation of `rag_answer`, on each of its three paths (empty
retrieval, grounded answer, caught exception), returns the input history
extended with exactly two turns — the user turn carrying the question, then
exactly one assistant turn — leaving every pre-existing turn unchanged. -/
theorem rag_answer_two_turn_frame {V : Type} (emb : Str → Except Str V)
    (qry : V → Int → Except Str (List QPoint)) (llm : Str → Except Str Str)
    (question : Str) (history : List Turn) (top_k : Int)
    (show_sources : Bool) :
    ∃ a, (rag_answer emb qry llm question history top_k show_sources).1
      = history ++ [⟨.user, question⟩, ⟨.assistant, a⟩] := by
  unfold rag_answer rag_body
  cases hemb : emb question with
  | error e =>
    simp only [hemb]
    exact ⟨errHeader ++ e, rfl⟩
  | ok v =>
    simp only [hemb]
    cases hqry : qry v top_k with
    | error e =>
      simp only [hqry]
      exact ⟨errHeader ++ e, rfl⟩
    | ok pts =>
      simp only [hqry]
      cases pts with
      | nil => exact ⟨noInfoMsg, rfl⟩
      | cons p ps =>
        cases hcol : collectChunks (p :: ps) with
        | error e =>
          refine ⟨errHeader ++ e, ?_⟩
          simp [hcol]
        | ok pr =>
          obtain ⟨cs, ss⟩ := pr
          cases hllm : llm (promptFor (joinWith "\n\n".toList cs) question) with
          | error e =>
            refine ⟨errHeader ++ e, ?_⟩
            simp at hllm
            simp [hcol, hllm]
          | ok answer =>
            refine ⟨answer, ?_⟩
            simp at hllm
            simp [hcol, hllm]

/-- C8: rebuilding the vector index from the same catalog twice — each
build deleting the existing collection, creating a fresh one, embedding
`title summary text` joined by single spaces, and upserting every record
keyed by its id — gives identical membership by id and identical payloads,
whatever the two runs' previous index states and embedding outputs (the
vectors alone may differ). -/
theorem rebuild_index_deterministic {V W : Type} (emb1 : Str → V)
    (emb2 : Str → W) (catalog : List EnrichedChunk)
    (prev1 : List (IndexPoint V)) (prev2 : List (IndexPoint W)) :
    (rebuild_index emb1 catalog prev1).map (fun p => p.id)
      = (rebuild_index emb2 catalog prev2).map (fun p => p.id) ∧
    (rebuild_index emb1 catalog prev1).map (fun p => p.payload)
      = (rebuild_index emb2 catalog prev2).map (fun p => p.payload) := by
  have key : ∀ {U : Type} (emb : Str → U) (prev : List (IndexPoint U)),
      (rebuild_index emb catalog prev).map stripVec
        = (catalog.map (fun c => (c.id, chunkPayload c))).foldl upsertS [] := by
    intro U emb prev
    unfold rebuild_index ingest_chunks create_collection
    rw [stripVec_foldl_upsert]
    simp only [List.map_map, List.map_nil]
    congr 1
  have h12 := (key emb1 prev1).trans (key emb2 prev2).symm
  constructor
  · have h := congrArg (List.map Prod.fst) h12
    simpa [List.map_map, Function.comp, stripVec] using h
  · have h := congrArg (List.map Prod.snd) h12
    simpa [List.map_map, Function.comp, stripVec] using h

end MetriconRag
